import Mathlib

/-!
# Verification of the bahamut push upstreamer and push session engine

Shallow embedding of the core of `aporeto-inc/bahamut`:

* `gateway/upstreamer/push/upstreamer.go` — `Upstream`, `Start`/`listenService`,
  `Collect`, `measure`;
* the push session code (`PushSession`) — `DirectPush`, the write loop,
  `currentFilter`, `listenToPushEvents`, `listenToAPIRequest`, and
  `handleEventualPanic`.

Go `float64` quantities (loads, latency averages) are modelled as `ℚ`;
`time.Duration` is modelled as `ℤ` (nanoseconds); `time.Time` as `ℤ`.
Randomness (`rand.Rand`) is modelled by explicit draw functions passed as
parameters, with the contract of `Intn` stated as a hypothesis where needed.
-/

namespace Bahamut

/-- Go's `int64(d) / 1000` used by `time.Duration.Microseconds`:
division with truncation toward zero. -/
def goQuot (a b : ℤ) : ℤ := Int.tdiv a b

/-- Go's `int(f)` conversion of a `float64` to an `int`:
truncation toward zero. -/
def goInt (q : ℚ) : ℤ := Int.tdiv q.num q.den

/-- On nonnegative values, Go's float-to-int truncation is the floor. -/
theorem goInt_eq_floor (q : ℚ) (h : 0 ≤ q) : goInt q = ⌊q⌋ := by
  rw [goInt, Int.tdiv_eq_ediv (Rat.num_nonneg.2 h) (Int.natCast_nonneg q.den), Rat.floor_def]

/-- Modelled from the spec: `MovingAverage(N)` — a bounded window of up to `N`
samples; `Add` overwrites the oldest sample in FIFO order once full;
`Average` is the arithmetic mean of the stored samples, `0` if empty.
(The file defining `MovingAverage` is not under `src/`; only its spec is.)
The ring buffer is modelled as the list of currently stored samples in
arrival order. -/
structure MovingAverage where
  capacity : ℕ
  samples : List ℚ
deriving Repr, DecidableEq

/-- Modelled from the spec: `NewMovingAverage` allocates an empty
fixed-capacity buffer. -/
def NewMovingAverage (n : ℕ) : MovingAverage := ⟨n, []⟩

/-- Modelled from the spec: append a sample; when the buffer is full,
overwrite the oldest one. -/
def MovingAverage.Add (ma : MovingAverage) (x : ℚ) : MovingAverage :=
  if ma.samples.length < ma.capacity then
    { ma with samples := ma.samples ++ [x] }
  else
    { ma with samples := ma.samples.tail ++ [x] }

/-- Modelled from the spec: arithmetic mean of the stored samples,
`0` when no sample has been added. -/
def MovingAverage.Average (ma : MovingAverage) : ℚ :=
  if ma.samples = [] then 0 else ma.samples.sum / ma.samples.length

/-- The `feedbackLoop` field of the `Upstreamer` (`sync.Map` from an endpoint
address to its `*MovingAverage`). -/
def FBMap : Type := String → Option MovingAverage

/-- The empty feedback map (a fresh `sync.Map`). -/
def emptyFB : FBMap := fun _ => none

/-- `Upstreamer.Collect` (upstreamer.go lines 246-259): records a latency
sample.  `v := float64(responseTime.Microseconds())`; if `v == 0` it returns;
if the address is already present the sample is added to its moving average;
otherwise a fresh (empty) `MovingAverage` of capacity `feedbackLoopSamples`
is stored and the sample itself is dropped.  `responseTime` is the Go
duration in nanoseconds; `feedbackLoopSamples` is passed explicitly. -/
def Collect (feedbackLoopSamples : ℕ) (fb : FBMap) (address : String)
    (responseTime : ℤ) : FBMap :=
  let v : ℚ := (goQuot responseTime 1000 : ℤ)
  if v = 0 then fb
  else
    match fb address with
    | some ma => fun x => if x = address then some (ma.Add v) else fb x
    | none => fun x => if x = address then some (NewMovingAverage feedbackLoopSamples) else fb x

/-- `Upstreamer.measure` (upstreamer.go lines 263-271): average of the
samples collected for `address`, `0` when the address has no entry. -/
def measure (fb : FBMap) (address : String) : ℚ :=
  match fb address with
  | some ma => ma.Average
  | none => 0

/-- The per-endpoint record read by `Upstream` (the `endpointInfo` fields
`address` and `lastLoad`; `lastSeen` and the per-endpoint lock only matter
for the listener loop and for concurrency, not for the selection logic). -/
structure endpointInfo where
  address : String
  lastLoad : ℚ
deriving Repr, DecidableEq

/-- The randomness consumed by `Upstream`: `intn n` models
`randomizer.Intn(n)` and `pick l` models `pick(randomizer, l)` (the two
distinct indices drawn when more than two endpoints exist; the file defining
`pick` is not under `src/`, so it is kept opaque as a parameter). -/
structure Rand where
  intn : ℤ → ℤ
  pick : ℕ → ℕ × ℕ

/-- The state of an `Upstreamer` as read by `Upstream`: the route table
`apis` (route identity → endpoints) and the feedback loop. -/
structure UpstreamerState where
  apis : String → List endpointInfo
  feedbackLoop : FBMap

/-- The two-or-more-endpoints tail of `Upstream` (upstreamer.go lines
74-118): snapshot the two candidates' addresses and loads, weight them by
the feedback-loop averages with a fallback to both `lastLoad`s when either
average is `0`, sort so `w.1 ≤ w.2` (carrying addresses and loads along),
draw `Intn(int(w.1+w.2) + 1)` and return the heavier candidate exactly when
the draw is `≤ w.1`. -/
def upstreamTwo (fb : FBMap) (epi1 epi2 : endpointInfo) (intn : ℤ → ℤ) :
    String × ℚ :=
  let m1 := measure fb epi1.address
  let m2 := measure fb epi2.address
  -- make sure we got an average for both, otherwise default to loads
  let w0 := if m1 = 0 ∨ m2 = 0 then epi1.lastLoad else m1
  let w1 := if m1 = 0 ∨ m2 = 0 then epi2.lastLoad else m2
  -- sort (the swap carries addresses and loads along with the weights)
  let a0 := if w0 > w1 then epi2.address else epi1.address
  let l0 := if w0 > w1 then epi2.lastLoad else epi1.lastLoad
  let a1 := if w0 > w1 then epi1.address else epi2.address
  let l1 := if w0 > w1 then epi1.lastLoad else epi2.lastLoad
  let wl := if w0 > w1 then w1 else w0
  let wh := if w0 > w1 then w0 else w1
  -- compute the cumulative distribution
  let cumulative := wl + wh
  let draw : ℚ := (intn (goInt cumulative + 1) : ℤ)
  if draw ≤ wl then (a1, l1) else (a0, l0)

/-- `Upstreamer.Upstream` (upstreamer.go lines 42-119).  `getTargetIdentity`
is not under `src/`, so `Upstream` is parametrized directly by the route
identity it extracts from the request path.  No endpoint: `("", 0)`; one
endpoint: that endpoint's address and last load; two: candidates `(0, 1)`;
more: candidates from `pick`. -/
def Upstream (c : UpstreamerState) (identity : String) (rand : Rand) :
    String × ℚ :=
  match c.apis identity with
  | [] => ("", 0)
  | [ep] => (ep.address, ep.lastLoad)
  | e1 :: e2 :: rest =>
    let eps := e1 :: e2 :: rest
    let picked := if eps.length = 2 then (0, 1) else rand.pick eps.length
    upstreamTwo c.feedbackLoop (eps.getD picked.1 ⟨"", 0⟩)
      (eps.getD picked.2 ⟨"", 0⟩) rand.intn

/-- C6: `Upstream` returns `("", 0)` when the route identity has no
endpoints, and deterministically returns the single endpoint's
`(address, lastLoad)` when it has exactly one. -/
theorem Upstream_empty_and_singleton (c : UpstreamerState) (identity : String)
    (rand : Rand) :
    (c.apis identity = [] → Upstream c identity rand = ("", 0)) ∧
    (∀ ep : endpointInfo, c.apis identity = [ep] →
      Upstream c identity rand = (ep.address, ep.lastLoad)) := by
  constructor
  · intro h
    simp [Upstream, h]
  · intro ep h
    simp [Upstream, h]

/-- A concrete upstreamer state: one route with a single endpoint, another
with two endpoints, and an empty feedback loop. -/
def upstreamerEx : UpstreamerState :=
  { apis := fun i =>
      if i = "lists" then [⟨"10.0.0.1:443", 1/2⟩]
      else if i = "tasks" then [⟨"a:1", 1⟩, ⟨"b:1", 2⟩]
      else []
    feedbackLoop := emptyFB }

/-- A deterministic stand-in for the randomizer: `Intn` always draws `0`. -/
def randZero : Rand := ⟨fun _ => 0, fun _ => (0, 1)⟩

/-- Witness for C6 at concrete inputs. -/
theorem Upstream_empty_and_singleton_witness :
    Upstream upstreamerEx "unknown" randZero = ("", 0) ∧
    Upstream upstreamerEx "lists" randZero = ("10.0.0.1:443", 1/2) :=
  ⟨(Upstream_empty_and_singleton upstreamerEx "unknown" randZero).1 rfl,
   (Upstream_empty_and_singleton upstreamerEx "lists" randZero).2
      ⟨"10.0.0.1:443", 1/2⟩ rfl⟩

/-- C1: on a route with two or more endpoints, with the two candidate
weights being the feedback-loop averages of the candidate addresses —
replaced by both candidates' `lastLoad`s whenever either average is `0` —
and after the sort that swaps candidates (addresses and loads carried
along) so that `wl ≤ wh`, the draw `d = Intn(⌊wl+wh⌋ + 1)` lies in
`[0, ⌊wl+wh⌋]` and `Upstream` returns the heavier candidate's
`(address, lastLoad)` iff `d ≤ wl`, the lighter's otherwise. -/
theorem Upstream_two_choice (c : UpstreamerState) (rand : Rand)
    (identity : String) (e1 e2 : endpointInfo) (rest : List endpointInfo)
    (n1 n2 : ℕ) (cand1 cand2 : endpointInfo) (m1 m2 w0 w1 : ℚ)
    (lightAddr heavyAddr : String) (lightLoad heavyLoad wl wh : ℚ) (d : ℤ)
    (happ : c.apis identity = e1 :: e2 :: rest)
    (hn1 : n1 = (if (e1 :: e2 :: rest).length = 2 then (0, 1)
        else rand.pick (e1 :: e2 :: rest).length).1)
    (hn2 : n2 = (if (e1 :: e2 :: rest).length = 2 then (0, 1)
        else rand.pick (e1 :: e2 :: rest).length).2)
    (hc1 : cand1 = (e1 :: e2 :: rest).getD n1 ⟨"", 0⟩)
    (hc2 : cand2 = (e1 :: e2 :: rest).getD n2 ⟨"", 0⟩)
    (hm1 : m1 = measure c.feedbackLoop cand1.address)
    (hm2 : m2 = measure c.feedbackLoop cand2.address)
    (hw0 : w0 = if m1 = 0 ∨ m2 = 0 then cand1.lastLoad else m1)
    (hw1 : w1 = if m1 = 0 ∨ m2 = 0 then cand2.lastLoad else m2)
    (hla : lightAddr = if w0 > w1 then cand2.address else cand1.address)
    (hll : lightLoad = if w0 > w1 then cand2.lastLoad else cand1.lastLoad)
    (hha : heavyAddr = if w0 > w1 then cand1.address else cand2.address)
    (hhl : heavyLoad = if w0 > w1 then cand1.lastLoad else cand2.lastLoad)
    (hwl : wl = if w0 > w1 then w1 else w0)
    (hwh : wh = if w0 > w1 then w0 else w1)
    (hd : d = rand.intn (goInt (wl + wh) + 1))
    (hintn : ∀ n : ℤ, 0 < n → 0 ≤ rand.intn n ∧ rand.intn n < n)
    (hwlnn : 0 ≤ wl) (hwhnn : 0 ≤ wh) :
    wl ≤ wh ∧ (0 ≤ d ∧ d ≤ ⌊wl + wh⌋) ∧
    Upstream c identity rand =
      if (d : ℚ) ≤ wl then (heavyAddr, heavyLoad)
      else (lightAddr, lightLoad) := by
  have hsorted : wl ≤ wh := by
    rw [hwl, hwh]
    split <;> linarith
  have hfl : goInt (wl + wh) = ⌊wl + wh⌋ := goInt_eq_floor _ (by linarith)
  have hpos : (0 : ℤ) < goInt (wl + wh) + 1 := by
    rw [hfl]
    have : (0 : ℤ) ≤ ⌊wl + wh⌋ := Int.floor_nonneg.2 (by linarith)
    omega
  have hdb := hintn _ hpos
  refine ⟨hsorted, ⟨hd ▸ hdb.1, ?_⟩, ?_⟩
  · have := hdb.2
    rw [hfl] at this
    omega
  · subst hd hwh hwl hhl hha hll hla hw1 hw0 hm1 hm2 hc1 hc2 hn1 hn2
    simp only [Upstream, happ, upstreamTwo]

/-- Witness for C1: the `"tasks"` route of `upstreamerEx` has the two
endpoints `("a:1", 1)` and `("b:1", 2)`; with no feedback samples the
weights fall back to the loads, no swap happens, the draw is `0 ≤ 1`, and
the heavier endpoint `("b:1", 2)` is returned. -/
theorem Upstream_two_choice_witness :
    (0 : ℚ) ≤ 1 ∧ (0 : ℚ) ≤ 2 ∧
    ((1 : ℚ) ≤ 2 ∧ (0 ≤ (0 : ℤ) ∧ (0 : ℤ) ≤ ⌊(1 : ℚ) + 2⌋) ∧
      Upstream upstreamerEx "tasks" randZero =
        if ((0 : ℤ) : ℚ) ≤ 1 then ("b:1", (2 : ℚ)) else ("a:1", (1 : ℚ))) :=
  ⟨by norm_num, by norm_num,
   Upstream_two_choice upstreamerEx randZero "tasks" ⟨"a:1", 1⟩ ⟨"b:1", 2⟩ []
     0 1 ⟨"a:1", 1⟩ ⟨"b:1", 2⟩ 0 0 1 2 "a:1" "b:1" 1 2 1 2 0
     rfl rfl rfl rfl rfl rfl rfl rfl rfl rfl rfl rfl rfl rfl rfl rfl
     (fun n hn => ⟨le_refl 0, hn⟩) (by norm_num) (by norm_num)⟩

/-- Counterexample for C2 as stated: a nonzero elapsed duration of 500
nanoseconds (`float64((500ns).Microseconds()) == 0`) is ignored by
`Collect`: nothing is stored for a never-seen address, while the claim
says any nonzero elapsed stores a fresh `MovingAverage` there. -/
theorem Collect_nonzero_claim_counterexample :
    (500 : ℤ) ≠ 0 ∧ emptyFB "addr" = none ∧
    Collect 10 emptyFB "addr" 500 = emptyFB :=
  ⟨by decide, rfl, rfl⟩

/-- C2 (amended): `Collect` is driven by the whole-microsecond count
`goQuot d 1000` of the elapsed duration `d` (nanoseconds).  When it is `0`
(in particular when `d = 0`) the feedback state is unchanged; when it is
nonzero, a never-collected address gets a fresh empty `MovingAverage` and
the sample is discarded (`measure` still `0`), and an already-present
address gets the sample added to its `MovingAverage`. -/
theorem Collect_spec (n : ℕ) (fb : FBMap) (address : String) (d : ℤ) :
    (goQuot d 1000 = 0 → Collect n fb address d = fb) ∧
    (goQuot d 1000 ≠ 0 → fb address = none →
      Collect n fb address d address = some (NewMovingAverage n) ∧
      measure (Collect n fb address d) address = 0) ∧
    (goQuot d 1000 ≠ 0 → ∀ ma : MovingAverage, fb address = some ma →
      Collect n fb address d address =
        some (ma.Add ((goQuot d 1000 : ℤ) : ℚ))) := by
  refine ⟨?_, ?_, ?_⟩
  · intro h
    simp [Collect, h]
  · intro h hnone
    have hv : ((goQuot d 1000 : ℤ) : ℚ) ≠ 0 := by exact_mod_cast h
    constructor
    · simp [Collect, hv, hnone]
    · simp [Collect, measure, hv, hnone, NewMovingAverage, MovingAverage.Average]
  · intro h ma hma
    have hv : ((goQuot d 1000 : ℤ) : ℚ) ≠ 0 := by exact_mod_cast h
    simp [Collect, hv, hma]

/-- Witness for C2 (amended) at a concrete input: 2500ns truncates to 2µs,
the first `Collect` for a fresh address stores an empty `MovingAverage`,
and `measure` still reports `0`. -/
theorem Collect_spec_witness :
    goQuot 2500 1000 ≠ 0 ∧ emptyFB "a" = none ∧
    (Collect 3 emptyFB "a" 2500 "a" = some (NewMovingAverage 3) ∧
      measure (Collect 3 emptyFB "a" 2500) "a" = 0) :=
  ⟨by decide, rfl, (Collect_spec 3 emptyFB "a" 2500).2.1 (by decide) rfl⟩

/-- `elemental.Event` as inspected by the session layer: its identity, its
type, and its timestamp (modelled as an integer instant). -/
structure Event where
  identity : String
  eventType : String
  timestamp : ℤ
deriving Repr, DecidableEq

/-- `PushSession.DirectPush` (config.go lines 185-196): each event whose
timestamp is strictly before the session's `startTime` is skipped; every
other event is sent on the session's `events` channel, in call order.  The
result is the sequence of events enqueued on the channel. -/
def DirectPush (startTime : ℤ) : List Event → List Event
  | [] => []
  | e :: rest =>
    if e.timestamp < startTime then DirectPush startTime rest
    else e :: DirectPush startTime rest

theorem DirectPush_eq_filter (startTime : ℤ) (evs : List Event) :
    DirectPush startTime evs =
      evs.filter (fun e => startTime ≤ e.timestamp) := by
  induction evs with
  | nil => rfl
  | cons e rest ih =>
    by_cases h : e.timestamp < startTime
    · rw [DirectPush, if_pos h, List.filter_cons_of_neg (by simpa using h)]
      exact ih
    · rw [DirectPush, if_neg h,
        List.filter_cons_of_pos (by simpa using not_lt.1 h), ih]

/-- C3: `DirectPush` silently drops every event with timestamp strictly
earlier than the session's `startTime`, enqueues every event with timestamp
`≥ startTime`, and the enqueued events preserve the call order (they form a
sublist of the pushed sequence, and consecutive calls concatenate). -/
theorem DirectPush_spec (startTime : ℤ) (evs evs2 : List Event) :
    DirectPush startTime evs =
      evs.filter (fun e => startTime ≤ e.timestamp) ∧
    (∀ e ∈ evs, e.timestamp < startTime → e ∉ DirectPush startTime evs) ∧
    (∀ e ∈ evs, startTime ≤ e.timestamp → e ∈ DirectPush startTime evs) ∧
    (DirectPush startTime evs).Sublist evs ∧
    DirectPush startTime (evs ++ evs2) =
      DirectPush startTime evs ++ DirectPush startTime evs2 := by
  refine ⟨DirectPush_eq_filter startTime evs, ?_, ?_, ?_, ?_⟩
  · intro e _ hlt hmem
    rw [DirectPush_eq_filter] at hmem
    have := List.of_mem_filter hmem
    simp only [decide_eq_true_eq] at this
    exact absurd this (not_le.2 hlt)
  · intro e he hle
    rw [DirectPush_eq_filter]
    exact List.mem_filter.2 ⟨he, by simpa using hle⟩
  · rw [DirectPush_eq_filter]
    exact List.filter_sublist evs
  · rw [DirectPush_eq_filter, DirectPush_eq_filter, DirectPush_eq_filter]
    exact List.filter_append evs evs2

/-- The S3 event sequence: timestamps 99, 100, 101 against a session
started at 100. -/
def evListS3 : List Event :=
  [⟨"i", "create", 99⟩, ⟨"i", "create", 100⟩, ⟨"j", "update", 101⟩]

/-- Witness for C3: with `startTime = 100`, the event at 99 is dropped and
the events at 100 and 101 are enqueued in order. -/
theorem DirectPush_spec_witness :
    (⟨"i", "create", 99⟩ : Event) ∈ evListS3 ∧ (99 : ℤ) < 100 ∧
    (⟨"i", "create", 99⟩ : Event) ∉ DirectPush 100 evListS3 ∧
    (⟨"i", "create", 100⟩ : Event) ∈ DirectPush 100 evListS3 :=
  ⟨by decide, by decide,
   (DirectPush_spec 100 evListS3 []).2.1 _ (by decide) (by decide),
   (DirectPush_spec 100 evListS3 []).2.2.1 _ (by decide) (by decide)⟩

/-- `elemental.PushFilter` as consumed by the session: an opaque
`IsFilteredOut(identity, eventType)` predicate. -/
structure PushFilter where
  IsFilteredOut : String → String → Bool

/-- `PushFilter.Duplicate`: a deep copy of the filter; on this pure model
the copy is the structure rebuilt from its field. -/
def PushFilter.Duplicate (f : PushFilter) : PushFilter := ⟨f.IsFilteredOut⟩

/-- `PushSession.currentFilter` (config.go lines 273-283): `nil` filter
stays `nil`; otherwise a point-in-time duplicate of the installed filter is
returned (under the filter mutex). -/
def currentFilter (filter : Option PushFilter) : Option PushFilter :=
  match filter with
  | none => none
  | some f => some f.Duplicate

/-- `elemental.Operation` as dispatched by `listenToAPIRequest`: the seven
operations with a `case` in the `switch`, plus `other` for any remaining
decoded operation value (the `switch` in the source has no `default`). -/
inductive Operation where
  | retrieveMany
  | retrieve
  | create
  | updateOp
  | deleteOp
  | info
  | patch
  | other (value : String)
deriving Repr, DecidableEq

/-- `elemental.Request` as touched by the session layer: its operation and
the credentials the token backport writes. -/
structure Request where
  operation : Operation
  username : String
  password : String
deriving Repr, DecidableEq

/-- An outbound frame on the session socket: an event, a response
(`writeWebsocketResponse`), or an error record with its HTTP status
(`writeWebSocketError`). -/
inductive WSFrame where
  | eventFrame (e : Event)
  | responseFrame (r : Request)
  | errorFrame (status : ℤ) (description : String) (r : Request)

/-- One iteration of the write loop on a received event (config.go lines
234-254): take the current filter (a point-in-time duplicate); if it is
non-nil and filters the event out, emit nothing; otherwise emit exactly one
event frame. -/
def writeEvent (filter : Option PushFilter) (e : Event) : List WSFrame :=
  match currentFilter filter with
  | some f =>
    if f.IsFilteredOut e.identity e.eventType then []
    else [WSFrame.eventFrame e]
  | none => [WSFrame.eventFrame e]

/-- C7: the write loop evaluates a point-in-time duplicate of the currently
installed filter just before sending; a filtered-out event yields zero
outbound frames, a non-filtered event yields exactly one, and a nil filter
filters nothing out. -/
theorem writeEvent_filter_spec (filter : Option PushFilter) (e : Event) :
    currentFilter filter = Option.map PushFilter.Duplicate filter ∧
    (∀ f : PushFilter, filter = some f →
      f.IsFilteredOut e.identity e.eventType = true →
      writeEvent filter e = []) ∧
    (∀ f : PushFilter, filter = some f →
      f.IsFilteredOut e.identity e.eventType = false →
      writeEvent filter e = [WSFrame.eventFrame e]) ∧
    (filter = none → writeEvent filter e = [WSFrame.eventFrame e]) := by
  refine ⟨?_, ?_, ?_, ?_⟩
  · cases filter <;> rfl
  · intro f hf hout
    subst hf
    simp [writeEvent, currentFilter, PushFilter.Duplicate, hout]
  · intro f hf hout
    subst hf
    simp [writeEvent, currentFilter, PushFilter.Duplicate, hout]
  · intro hf
    subst hf
    rfl

/-- A filter suppressing exactly the identity `"I"`. -/
def filterI : PushFilter := ⟨fun i _ => i = "I"⟩

/-- Witness for C7: under `filterI`, an event with identity `"I"` produces
zero frames and an event with identity `"J"` produces exactly one. -/
theorem writeEvent_filter_spec_witness :
    filterI.IsFilteredOut "I" "create" = true ∧
    writeEvent (some filterI) ⟨"I", "create", 0⟩ = [] ∧
    writeEvent (some filterI) ⟨"J", "create", 0⟩ =
      [WSFrame.eventFrame ⟨"J", "create", 0⟩] :=
  ⟨by decide,
   (writeEvent_filter_spec (some filterI) ⟨"I", "create", 0⟩).2.1
      filterI rfl (by decide),
   (writeEvent_filter_spec (some filterI) ⟨"J", "create", 0⟩).2.2.1
      filterI rfl (by decide)⟩

/-- The effects of the deferred teardown block shared by
`listenToPushEvents` and `listenToAPIRequest` (config.go lines 297-306 and
324-333): signal both stop channels, invoke the unregister callback once,
close the socket, clear the retained callback references. -/
structure TeardownResult where
  stopReadSignaled : Bool
  stopWriteSignaled : Bool
  unregisterCalls : ℕ
  socketClosed : Bool
  callbacksCleared : Bool
deriving Repr, DecidableEq

/-- The teardown executed exactly once when a control loop returns. -/
def sessionTeardown : TeardownResult :=
  { stopReadSignaled := true
    stopWriteSignaled := true
    unregisterCalls := 1
    socketClosed := true
    callbacksCleared := true }

/-- The inputs of the Event-role control loop: a decoded filter from the
read loop (JSON `null` decodes to a nil filter), or a `stopAll` signal.
Every termination cause — peer close or read error (`readFilters` sends
`stopAll`), write error (`write` sends `stopAll`), internal stop
(`close()` sends `stopAll`) — arrives as a `stopAll` message. -/
inductive EventCtrlMsg where
  | filt (f : Option PushFilter)
  | stopAll

/-- `PushSession.listenToPushEvents` (config.go lines 292-317): install
each received filter; on the first `stopAll`, run the deferred teardown and
return.  Yields the final installed filter and the teardown (none while the
loop is still running). -/
def listenToPushEvents :
    Option PushFilter → List EventCtrlMsg → Option PushFilter × Option TeardownResult
  | f, [] => (f, none)
  | _, .filt g :: rest => listenToPushEvents g rest
  | f, .stopAll :: _ => (f, some sessionTeardown)

/-- The inputs of the API-role control loop: a decoded request from the
read loop, or a `stopAll` signal (same causes as for the Event role). -/
inductive APICtrlMsg where
  | request (r : Request)
  | stopAll

/-- The outcome of one of the external `dispatch*Operation` calls: success
with a context, an error, or a panic escaping with the given value. -/
inductive DispatchOutcome where
  | ok
  | err (status : ℤ) (description : String)
  | panicked (value : String)

/-- The token backport of `listenToAPIRequest` (config.go lines 339-343):
a non-empty `token` query parameter is injected as credentials
`("Bearer", token)`. -/
def backportToken (token : String) (r : Request) : Request :=
  if token ≠ "" then { r with username := "Bearer", password := token } else r

/-- Whether the operation `switch` of `listenToAPIRequest` (config.go lines
345-367) starts a handler for this operation. -/
def opDispatched : Operation → Bool
  | .other _ => false
  | _ => true

/-- An operation handler (`handleRetrieveMany` … `handlePatch`, config.go
lines 391-561) under its `handleEventualPanic` guard (lines 375-389): a
successful dispatch writes one response frame, a returned error writes one
error frame, and a panic is recovered and converted into exactly one error
frame with HTTP status 500 (`Internal Server Error`) carrying the panic
value as description. -/
def handleOperation (r : Request) (outcome : DispatchOutcome) : List WSFrame :=
  match outcome with
  | .ok => [WSFrame.responseFrame r]
  | .err s desc => [WSFrame.errorFrame s desc r]
  | .panicked v => [WSFrame.errorFrame 500 v r]

/-- `PushSession.listenToAPIRequest` (config.go lines 319-373): for each
request, backport the session token, and if the operation has a `case` in
the `switch`, run its handler (outcome given by the external dispatcher
`d`); a request whose operation has no `case` is dropped.  On the first
`stopAll`, run the deferred teardown and return.  Yields the frames written
by the handlers and the teardown status. -/
def listenToAPIRequest (token : String) (d : Request → DispatchOutcome) :
    List APICtrlMsg → List WSFrame × Option TeardownResult
  | [] => ([], none)
  | .request r :: rest =>
    let rq := backportToken token r
    let frames :=
      if opDispatched rq.operation then handleOperation rq (d rq) else []
    (frames ++ (listenToAPIRequest token d rest).1,
     (listenToAPIRequest token d rest).2)
  | .stopAll :: _ => ([], some sessionTeardown)

theorem backportToken_operation (token : String) (r : Request) :
    (backportToken token r).operation = r.operation := by
  unfold backportToken
  split <;> rfl

/-- C4: when the dispatched operation of any handled request panics, the
panic is caught and converted into exactly one error frame with HTTP
status 500, and the session keeps running: the loop's behavior on the
remaining messages is unchanged, and after the panicking request alone the
session has not torn down. -/
theorem handler_panic_contained (token : String)
    (d : Request → DispatchOutcome) (r : Request) (v : String)
    (rest : List APICtrlMsg)
    (hop : opDispatched r.operation = true)
    (hpanic : d (backportToken token r) = .panicked v) :
    handleOperation (backportToken token r) (d (backportToken token r)) =
      [WSFrame.errorFrame 500 v (backportToken token r)] ∧
    listenToAPIRequest token d (.request r :: rest) =
      (WSFrame.errorFrame 500 v (backportToken token r) ::
        (listenToAPIRequest token d rest).1,
       (listenToAPIRequest token d rest).2) ∧
    (listenToAPIRequest token d [.request r]).2 = none := by
  have hop' : opDispatched (backportToken token r).operation = true := by
    rw [backportToken_operation]
    exact hop
  refine ⟨by rw [hpanic]; rfl, ?_, ?_⟩
  · simp [listenToAPIRequest, hop', hpanic, handleOperation]
  · simp [listenToAPIRequest]

/-- A dispatcher that panics on create requests and succeeds elsewhere. -/
def dispatchPanicOnCreate : Request → DispatchOutcome := fun r =>
  match r.operation with
  | .create => .panicked "boom"
  | _ => .ok

/-- Witness for C4 (scenario S4): a `Create` request whose handler panics
produces a single 500 error frame, and a second valid request on the same
session is still processed afterwards. -/
theorem handler_panic_contained_witness :
    opDispatched (Operation.create) = true ∧
    dispatchPanicOnCreate (backportToken "" ⟨.create, "", ""⟩) =
      .panicked "boom" ∧
    listenToAPIRequest "" dispatchPanicOnCreate
        [.request ⟨.create, "", ""⟩, .request ⟨.retrieve, "", ""⟩] =
      (WSFrame.errorFrame 500 "boom" ⟨.create, "", ""⟩ ::
        (listenToAPIRequest "" dispatchPanicOnCreate
          [.request ⟨.retrieve, "", ""⟩]).1,
       (listenToAPIRequest "" dispatchPanicOnCreate
          [.request ⟨.retrieve, "", ""⟩]).2) :=
  ⟨rfl, rfl,
   (handler_panic_contained "" dispatchPanicOnCreate ⟨.create, "", ""⟩
      "boom" [.request ⟨.retrieve, "", ""⟩] rfl rfl).2.1⟩

/-- C10: a decoded request whose operation is none of the seven handled
ones is silently discarded: no handler is started, no frame is written for
it, and the control loop's behavior on the rest of the session is exactly
as if the request had never arrived. -/
theorem unknown_operation_discarded (token : String)
    (d : Request → DispatchOutcome) (r : Request) (v : String)
    (rest : List APICtrlMsg)
    (hop : r.operation = .other v) :
    opDispatched r.operation = false ∧
    listenToAPIRequest token d (.request r :: rest) =
      listenToAPIRequest token d rest := by
  have hop' : opDispatched (backportToken token r).operation = false := by
    rw [backportToken_operation, hop]
    rfl
  refine ⟨by rw [hop]; rfl, ?_⟩
  simp [listenToAPIRequest, hop']

/-- Witness for C10: a request with an unrecognized operation value leaves
the session exactly where it was. -/
theorem unknown_operation_discarded_witness :
    (⟨.other "subscribe", "", ""⟩ : Request).operation = .other "subscribe" ∧
    opDispatched (⟨.other "subscribe", "", ""⟩ : Request).operation = false ∧
    listenToAPIRequest "" dispatchPanicOnCreate
        [.request ⟨.other "subscribe", "", ""⟩, .request ⟨.retrieve, "", ""⟩] =
      listenToAPIRequest "" dispatchPanicOnCreate
        [.request ⟨.retrieve, "", ""⟩] :=
  ⟨rfl,
   (unknown_operation_discarded "" dispatchPanicOnCreate _ "subscribe"
      [.request ⟨.retrieve, "", ""⟩] rfl).1,
   (unknown_operation_discarded "" dispatchPanicOnCreate _ "subscribe"
      [.request ⟨.retrieve, "", ""⟩] rfl).2⟩

theorem listenToPushEvents_stop (msgs : List EventCtrlMsg)
    (f0 : Option PushFilter) (h : EventCtrlMsg.stopAll ∈ msgs) :
    (listenToPushEvents f0 msgs).2 = some sessionTeardown := by
  induction msgs generalizing f0 with
  | nil => cases h
  | cons m rest ih =>
    cases m with
    | filt g =>
      have hmem : EventCtrlMsg.stopAll ∈ rest := by simpa using h
      simpa [listenToPushEvents] using ih g hmem
    | stopAll => rfl

theorem listenToAPIRequest_stop (amsgs : List APICtrlMsg) (token : String)
    (d : Request → DispatchOutcome) (h : APICtrlMsg.stopAll ∈ amsgs) :
    (listenToAPIRequest token d amsgs).2 = some sessionTeardown := by
  induction amsgs with
  | nil => cases h
  | cons m rest ih =>
    cases m with
    | request r =>
      have hmem : APICtrlMsg.stopAll ∈ rest := by simpa using h
      simpa [listenToAPIRequest] using ih hmem
    | stopAll => rfl

/-- C8: whatever the termination cause (each cause is delivered to the
control loop as a `stopAll` signal), both the Event-role and the API-role
control loops run the teardown exactly once: the unregister callback is
called once, both stop channels are signaled, the socket is closed, and
the retained callback references are cleared. -/
theorem session_teardown_once (f0 : Option PushFilter)
    (msgs : List EventCtrlMsg) (token : String)
    (d : Request → DispatchOutcome) (amsgs : List APICtrlMsg)
    (h1 : EventCtrlMsg.stopAll ∈ msgs) (h2 : APICtrlMsg.stopAll ∈ amsgs) :
    (listenToPushEvents f0 msgs).2 = some sessionTeardown ∧
    (listenToAPIRequest token d amsgs).2 = some sessionTeardown ∧
    sessionTeardown.unregisterCalls = 1 ∧
    sessionTeardown.stopReadSignaled = true ∧
    sessionTeardown.stopWriteSignaled = true ∧
    sessionTeardown.socketClosed = true ∧
    sessionTeardown.callbacksCleared = true :=
  ⟨listenToPushEvents_stop msgs f0 h1,
   listenToAPIRequest_stop amsgs token d h2, rfl, rfl, rfl, rfl, rfl⟩

/-- Witness for C8: an Event-role session that receives a filter update and
then a stop, and an API-role session that receives a request and then a
stop, both tear down exactly once. -/
theorem session_teardown_once_witness :
    EventCtrlMsg.stopAll ∈
      [EventCtrlMsg.filt (some filterI), EventCtrlMsg.stopAll] ∧
    APICtrlMsg.stopAll ∈
      [APICtrlMsg.request ⟨.retrieve, "", ""⟩, APICtrlMsg.stopAll] ∧
    ((listenToPushEvents none
        [EventCtrlMsg.filt (some filterI), EventCtrlMsg.stopAll]).2 =
      some sessionTeardown ∧
     (listenToAPIRequest "" dispatchPanicOnCreate
        [APICtrlMsg.request ⟨.retrieve, "", ""⟩, APICtrlMsg.stopAll]).2 =
      some sessionTeardown ∧
     sessionTeardown.unregisterCalls = 1 ∧
     sessionTeardown.stopReadSignaled = true ∧
     sessionTeardown.stopWriteSignaled = true ∧
     sessionTeardown.socketClosed = true ∧
     sessionTeardown.callbacksCleared = true) :=
  ⟨by simp, by simp,
   session_teardown_once none _ "" dispatchPanicOnCreate _
     (by simp) (by simp)⟩

/-- Index of the first occurrence of a character. -/
def idxOf (c : Char) : List Char → Option ℕ
  | [] => none
  | x :: xs => if x = c then some 0 else (idxOf c xs).map (· + 1)

/-- Index of the last occurrence of a character. -/
def lastIdxOf (c : Char) : List Char → Option ℕ
  | [] => none
  | x :: xs =>
    match lastIdxOf c xs with
    | some i => some (i + 1)
    | none => if x = c then some 0 else none

/-- Go's `net.SplitHostPort` (standard library, called by `listenService`):
`some (host, port)` on success, `none` on any error (missing port, missing
bracket, too many colons, stray brackets).  Follows the Go implementation:
find the last colon; a leading bracket must be closed right before it and
the remainder checked for stray brackets; otherwise the host may not
contain a colon and the whole string may not contain brackets. -/
def splitHostPort (hostport : String) : Option (String × String) :=
  let l := hostport.toList
  match lastIdxOf ':' l with
  | none => none
  | some i =>
    match l with
    | '[' :: _ =>
      match idxOf ']' l with
      | none => none
      | some e =>
        if e + 1 = l.length then none
        else if e + 1 = i then
          if (l.drop 1).contains '[' then none
          else if (l.drop (e + 1)).contains ']' then none
          else some (((l.drop 1).take (e - 1)).asString,
            (l.drop (i + 1)).asString)
        else none
    | _ =>
      if (l.take i).contains ':' then none
      else if l.contains '[' then none
      else if l.contains ']' then none
      else some ((l.take i).asString, (l.drop (i + 1)).asString)

/-- The `serviceStatusHello` constant. -/
def serviceStatusHello : String := "hello"

/-- The `serviceStatusGoodbye` constant. -/
def serviceStatusGoodbye : String := "goodbye"

/-- Modelled from the spec: the `ping` wire record published on the status
topic (its defining file is not under `src/`): `name`, `endpoint`,
`status`, `load`; the route-list fields do not influence the claims
verified here. -/
structure ping where
  Name : String
  Endpoint : String
  Status : String
  Load : ℚ
deriving Repr, DecidableEq

/-- The endpoint-override rewrite applied to every decoded ping before it
is dispatched by status (upstreamer.go lines 191-196): when
`overrideEndpointAddress` is non-empty and the ping's endpoint splits as
host:port, the host is replaced by the override and the port kept;
otherwise the ping passes through unchanged. -/
def overridePingEndpoint (overrideEndpointAddress : String) (sp : ping) :
    ping :=
  if overrideEndpointAddress ≠ "" then
    match splitHostPort sp.Endpoint with
    | some (_, p) =>
      { sp with Endpoint := overrideEndpointAddress ++ ":" ++ p }
    | none => sp
  else sp

theorem overridePingEndpoint_Name (o : String) (sp : ping) :
    (overridePingEndpoint o sp).Name = sp.Name := by
  unfold overridePingEndpoint
  split
  · split <;> rfl
  · rfl

theorem overridePingEndpoint_Status (o : String) (sp : ping) :
    (overridePingEndpoint o sp).Status = sp.Status := by
  unfold overridePingEndpoint
  split
  · split <;> rfl
  · rfl

/-- C9: with a non-empty `overrideEndpointAddress`, every received ping
whose endpoint splits as host:port is rewritten — before being dispatched —
so that its host becomes the override while its port is preserved; name,
status and load are untouched. -/
theorem override_endpoint_spec (override : String) (sp : ping)
    (h p : String) (hov : override ≠ "")
    (hsplit : splitHostPort sp.Endpoint = some (h, p)) :
    (overridePingEndpoint override sp).Endpoint = override ++ ":" ++ p ∧
    (overridePingEndpoint override sp).Name = sp.Name ∧
    (overridePingEndpoint override sp).Status = sp.Status ∧
    (overridePingEndpoint override sp).Load = sp.Load := by
  refine ⟨?_, overridePingEndpoint_Name override sp,
    overridePingEndpoint_Status override sp, ?_⟩ <;>
    simp [overridePingEndpoint, hov, hsplit]

/-- Witness for C9: a hello with endpoint `192.168.1.2:8443` under override
`10.0.0.1` registers `10.0.0.1:8443`. -/
theorem override_endpoint_spec_witness :
    ("10.0.0.1" : String) ≠ "" ∧
    splitHostPort "192.168.1.2:8443" = some ("192.168.1.2", "8443") ∧
    (overridePingEndpoint "10.0.0.1"
        ⟨"svc", "192.168.1.2:8443", "hello", 0⟩).Endpoint =
      "10.0.0.1" ++ ":" ++ "8443" :=
  ⟨by decide, by rfl,
   (override_endpoint_spec "10.0.0.1" ⟨"svc", "192.168.1.2:8443", "hello", 0⟩
      "192.168.1.2" "8443" (by decide) (by rfl)).1⟩

/-- One message consumed by the `listenService` select loop (upstreamer.go
lines 160-241): a publication (`none` models a ping that failed to decode
and is dropped with a log), a timeout-check tick, or a non-fatal pubsub
error.  Ticks and errors do not touch the required-services tracking. -/
inductive ServiceMsg where
  | pub (decoded : Option ping)
  | tick
  | errMsg

/-- The required-services tracking state of `listenService` (upstreamer.go
lines 141-153 and 208-219): the `requiredServices` seen-map, the
`requiredReady` counter, the `requiredNotifSent` flag, and the number of
times `close(ready)` has executed. -/
structure RequiredState where
  requiredServices : List (String × Bool)
  requiredReady : ℕ
  requiredNotifSent : Bool
  closeCount : ℕ
deriving Repr, DecidableEq

/-- Go map read `requiredServices[n]` (first matching key). -/
def lookupReq : List (String × Bool) → String → Option Bool
  | [], _ => none
  | (k, v) :: rest, n => if k = n then some v else lookupReq rest n

/-- Go map write `requiredServices[n] = b` (replace the first matching key,
append when absent). -/
def setReq : List (String × Bool) → String → Bool → List (String × Bool)
  | [], n, b => [(n, b)]
  | (k, v) :: rest, n, b =>
    if k = n then (k, b) :: rest else (k, v) :: setReq rest n b

/-- The initialization of `listenService` (upstreamer.go lines 141-153):
every required name mapped to `false`, counters at zero, and — when
`requiredServices` is empty — `requiredNotifSent` set and the ready signal
closed immediately. -/
def initListen (names : List String) : RequiredState :=
  let m := names.foldl (fun acc n => setReq acc n false) []
  if names.length = 0 then ⟨m, 0, true, 1⟩ else ⟨m, 0, false, 0⟩

/-- One iteration of the `listenService` select loop restricted to the
required-services state (upstreamer.go lines 160-241): only a successfully
decoded publication with status hello touches the tracking; the decoded
ping first goes through the endpoint-override rewrite; an unseen required
name is marked and counted; when the counter reaches `requiredCount` the
`requiredNotifSent` flag is set and `close(ready)` runs. -/
def listenStep (requiredCount : ℕ) (override : String) (st : RequiredState) :
    ServiceMsg → RequiredState
  | .tick => st
  | .errMsg => st
  | .pub none => st
  | .pub (some sp0) =>
    let sp := overridePingEndpoint override sp0
    if sp.Status = serviceStatusHello then
      if 0 < requiredCount ∧ st.requiredNotifSent = false then
        let upd :=
          match lookupReq st.requiredServices sp.Name with
          | some false =>
            (setReq st.requiredServices sp.Name true, st.requiredReady + 1)
          | _ => (st.requiredServices, st.requiredReady)
        if upd.2 = requiredCount then
          ⟨upd.1, upd.2, true, st.closeCount + 1⟩
        else
          ⟨upd.1, upd.2, st.requiredNotifSent, st.closeCount⟩
      else st
    else st

/-- `listenService` run over a whole message sequence. -/
def runListen (names : List String) (override : String)
    (msgs : List ServiceMsg) : RequiredState :=
  msgs.foldl (listenStep names.length override) (initListen names)

/-- The names carried by the successfully decoded hello pings of a message
sequence (the override rewrite never touches names or statuses). -/
def helloNames : List ServiceMsg → List String
  | [] => []
  | .pub (some sp) :: rest =>
    if sp.Status = serviceStatusHello then sp.Name :: helloNames rest
    else helloNames rest
  | .pub none :: rest => helloNames rest
  | .tick :: rest => helloNames rest
  | .errMsg :: rest => helloNames rest

theorem lookupReq_mem {m : List (String × Bool)} {n : String} {v : Bool}
    (h : lookupReq m n = some v) : (n, v) ∈ m := by
  induction m with
  | nil => cases h
  | cons kv rest ih =>
    obtain ⟨k, w⟩ := kv
    by_cases hk : k = n
    · subst hk
      simp only [lookupReq, if_pos rfl] at h
      injection h with h
      subst h
      exact List.mem_cons_self _ _
    · simp only [lookupReq, if_neg hk] at h
      exact List.mem_cons_of_mem _ (ih h)

theorem lookupReq_mem_keys {m : List (String × Bool)} {n : String}
    (h : n ∈ m.map Prod.fst) : ∃ v, lookupReq m n = some v := by
  induction m with
  | nil => cases h
  | cons kv rest ih =>
    obtain ⟨k, w⟩ := kv
    by_cases hk : k = n
    · exact ⟨w, by simp only [lookupReq, if_pos hk]⟩
    · have : n ∈ rest.map Prod.fst := by
        rcases List.mem_cons.1 h with h' | h'
        · exact absurd h'.symm hk
        · exact h'
      obtain ⟨v, hv⟩ := ih this
      exact ⟨v, by simp only [lookupReq, if_neg hk, hv]⟩

theorem setReq_keys {m : List (String × Bool)} {n : String} {v : Bool}
    (b : Bool) (h : lookupReq m n = some v) :
    (setReq m n b).map Prod.fst = m.map Prod.fst := by
  induction m with
  | nil => cases h
  | cons kv rest ih =>
    obtain ⟨k, w⟩ := kv
    by_cases hk : k = n
    · simp [setReq, if_pos hk]
    · simp only [lookupReq, if_neg hk] at h
      simp [setReq, if_neg hk, ih h]

theorem lookupReq_setReq_self (m : List (String × Bool)) (n : String)
    (b : Bool) : lookupReq (setReq m n b) n = some b := by
  induction m with
  | nil => simp [setReq, lookupReq]
  | cons kv rest ih =>
    obtain ⟨k, w⟩ := kv
    by_cases hk : k = n
    · simp [setReq, if_pos hk, lookupReq, hk]
    · simp [setReq, if_neg hk, lookupReq, if_neg hk, ih]

theorem lookupReq_setReq_ne (m : List (String × Bool)) {n k : String}
    (b : Bool) (hk : k ≠ n) :
    lookupReq (setReq m n b) k = lookupReq m k := by
  induction m with
  | nil =>
    have hnk : ¬ n = k := fun h => hk h.symm
    simp [setReq, lookupReq, hnk]
  | cons kv rest ih =>
    obtain ⟨k', w⟩ := kv
    by_cases hk' : k' = n
    · subst hk'
      have hne : ¬ k' = k := fun h => hk (h ▸ rfl)
      simp [setReq, lookupReq, hne]
    · by_cases hkk : k' = k
      · subst hkk
        simp [setReq, if_neg hk', lookupReq]
      · simp [setReq, if_neg hk', lookupReq, hkk, ih]

theorem filter_setReq_true {m : List (String × Bool)} {n : String}
    (h : lookupReq m n = some false) :
    ((setReq m n true).filter fun p => p.2).length =
      (m.filter fun p => p.2).length + 1 := by
  induction m with
  | nil => cases h
  | cons kv rest ih =>
    obtain ⟨k, w⟩ := kv
    by_cases hk : k = n
    · simp only [lookupReq, if_pos hk] at h
      injection h with h
      subst h
      simp [setReq, if_pos hk]
    · simp only [lookupReq, if_neg hk] at h
      cases w <;> simp [setReq, if_neg hk, ih h]

theorem all_true_of_filter_length {m : List (String × Bool)}
    (h : (m.filter fun p => p.2).length = m.length) :
    ∀ p ∈ m, p.2 = true := by
  induction m with
  | nil => intro p hp; cases hp
  | cons kv rest ih =>
    obtain ⟨k, w⟩ := kv
    cases w
    · exfalso
      have hf : List.filter (fun p => p.2) ((k, false) :: rest) =
          List.filter (fun p => p.2) rest := by simp
      rw [hf] at h
      simp only [List.length_cons] at h
      have := List.length_filter_le (fun p => p.2) rest
      omega
    · intro p hp
      rcases List.mem_cons.1 hp with h' | h'
      · rw [h']
      · have hf : List.filter (fun p => p.2) ((k, true) :: rest) =
            (k, true) :: List.filter (fun p => p.2) rest := by simp
        rw [hf] at h
        simp only [List.length_cons] at h
        exact ih (by omega) p h'

theorem lookup_true_of_all {m : List (String × Bool)} {n : String}
    (hall : ∀ p ∈ m, p.2 = true) (hn : n ∈ m.map Prod.fst) :
    lookupReq m n = some true := by
  obtain ⟨v, hv⟩ := lookupReq_mem_keys hn
  have hv2 : v = true := hall _ (lookupReq_mem hv)
  rw [hv, hv2]

theorem filter_length_of_all_lookup_true {m : List (String × Bool)}
    (hnd : (m.map Prod.fst).Nodup)
    (h : ∀ n ∈ m.map Prod.fst, lookupReq m n = some true) :
    (m.filter fun p => p.2).length = m.length := by
  induction m with
  | nil => rfl
  | cons kv rest ih =>
    obtain ⟨k, w⟩ := kv
    have hk := h k (by simp)
    simp only [lookupReq, if_pos rfl] at hk
    injection hk with hk
    subst hk
    have hnd' : k ∉ rest.map Prod.fst ∧ (rest.map Prod.fst).Nodup := by
      rw [List.map_cons, List.nodup_cons] at hnd
      exact hnd
    have hrest : ∀ n ∈ rest.map Prod.fst, lookupReq rest n = some true := by
      intro n hn
      have hne : ¬ k = n := fun hkn => hnd'.1 (hkn ▸ hn)
      have := h n (by simp [hn])
      simpa [lookupReq, if_neg hne] using this
    have hrec := ih hnd'.2 hrest
    have hf : List.filter (fun p => p.2) ((k, true) :: rest) =
        (k, true) :: List.filter (fun p => p.2) rest := by simp
    rw [hf, List.length_cons, List.length_cons, hrec]

theorem setReq_append {m : List (String × Bool)} {n : String} (b : Bool)
    (h : n ∉ m.map Prod.fst) : setReq m n b = m ++ [(n, b)] := by
  induction m with
  | nil => rfl
  | cons kv rest ih =>
    obtain ⟨k, w⟩ := kv
    have hk : ¬ k = n := by
      intro hk
      exact h (by simp [hk])
    simp only [setReq, if_neg hk, List.cons_append, List.cons.injEq, true_and]
    exact ih (fun hn => h (by simp [hn]))

theorem foldl_setReq_false (names : List String) :
    ∀ m : List (String × Bool), (∀ n ∈ names, n ∉ m.map Prod.fst) →
    names.Nodup →
    names.foldl (fun acc n => setReq acc n false) m =
      m ++ names.map fun n => (n, false) := by
  induction names with
  | nil => intro m _ _; simp
  | cons n rest ih =>
    intro m hdisj hnd
    rw [List.foldl_cons, setReq_append false (hdisj n (by simp)),
      ih (m ++ [(n, false)]) ?_ (List.nodup_cons.1 hnd).2]
    · simp
    · intro k hk
      simp only [List.map_append, List.mem_append]
      rintro (h | h)
      · exact hdisj k (by simp [hk]) h
      · simp only [List.map_cons, List.map_nil, List.mem_cons] at h
        rcases h with h | h
        · exact (List.nodup_cons.1 hnd).1 (h ▸ hk)
        · cases h

theorem initListen_map (names : List String) (hnd : names.Nodup) :
    (initListen names).requiredServices = names.map fun n => (n, false) := by
  have h := foldl_setReq_false names [] (by simp) hnd
  rw [List.nil_append] at h
  simp only [initListen]
  split <;> exact h

/-- The invariant tying the required-services state of `listenService` to
the hello names processed so far. -/
structure ReqInv (names : List String) (hellos : List String)
    (st : RequiredState) : Prop where
  keys_eq : st.requiredServices.map Prod.fst = names
  ready_eq : st.requiredReady = (st.requiredServices.filter fun p => p.2).length
  close_le : st.closeCount ≤ 1
  notif_iff : st.requiredNotifSent = true ↔ st.closeCount = 1
  empty_notif : names = [] → st.requiredNotifSent = true
  unmarked_iff : st.requiredNotifSent = false →
    ∀ n : String, lookupReq st.requiredServices n = some true ↔
      (n ∈ names ∧ n ∈ hellos)
  notif_all : st.requiredNotifSent = true → ∀ n ∈ names, n ∈ hellos
  notif_lt : names ≠ [] → st.requiredNotifSent = false →
    st.requiredReady < names.length

theorem initListen_nil : initListen [] = ⟨[], 0, true, 1⟩ := rfl

theorem initListen_ne (names : List String) (h : ¬ names.length = 0) :
    initListen names =
      ⟨names.foldl (fun acc n => setReq acc n false) [], 0, false, 0⟩ := by
  simp only [initListen, if_neg h]

theorem filter_false_map (names : List String) :
    (names.map fun n => (n, false)).filter (fun p => p.2) = [] := by
  induction names with
  | nil => rfl
  | cons n rest ih => simp [ih]

theorem initListen_inv (names : List String) (hnd : names.Nodup) :
    ReqInv names [] (initListen names) := by
  by_cases hz : names.length = 0
  · have hnil : names = [] := List.length_eq_zero.1 hz
    subst hnil
    rw [initListen_nil]
    refine ⟨rfl, rfl, le_refl 1, by simp, fun _ => rfl, ?_, ?_, ?_⟩
    · intro h
      simp at h
    · intro _ n hn
      cases hn
    · intro h
      exact absurd rfl h
  · have hm := foldl_setReq_false names [] (by simp) hnd
    rw [List.nil_append] at hm
    rw [initListen_ne names hz, hm]
    refine ⟨by simp [Function.comp_def], by simp [filter_false_map],
      Nat.zero_le 1, by simp, ?_, ?_, ?_, ?_⟩
    · intro h
      subst h
      simp at hz
    · intro _ n
      constructor
      · intro h
        have := lookupReq_mem h
        simp at this
      · rintro ⟨_, h2⟩
        cases h2
    · intro h
      simp at h
    · intro _ _
      exact Nat.pos_of_ne_zero hz

theorem listenStep_inv (names : List String) (override : String)
    (st : RequiredState) (sp : ping) (hellos : List String)
    (hinv : ReqInv names hellos st) :
    ReqInv names
      (hellos ++ if sp.Status = serviceStatusHello then [sp.Name] else [])
      (listenStep names.length override st (.pub (some sp))) := by
  by_cases hst : sp.Status = serviceStatusHello
  case neg =>
    have hred : listenStep names.length override st (.pub (some sp)) = st := by
      simp [listenStep, overridePingEndpoint_Status, hst]
    rw [hred, if_neg hst, List.append_nil]
    exact hinv
  case pos =>
    rw [if_pos hst]
    by_cases hg : 0 < names.length ∧ st.requiredNotifSent = false
    case neg =>
      have hred : listenStep names.length override st (.pub (some sp)) = st := by
        simp only [listenStep, overridePingEndpoint_Status,
          overridePingEndpoint_Name, hst, if_true]
        rw [if_neg hg]
      rw [hred]
      have hsent : st.requiredNotifSent = true := by
        by_cases hn0 : 0 < names.length
        · rcases Bool.eq_false_or_eq_true st.requiredNotifSent with h | h
          · exact h
          · exact absurd ⟨hn0, h⟩ hg

        · exact hinv.empty_notif (List.length_eq_zero.1 (by omega))
      refine ⟨hinv.keys_eq, hinv.ready_eq, hinv.close_le, hinv.notif_iff,
        hinv.empty_notif, ?_, ?_, ?_⟩
      · intro hns
        rw [hsent] at hns
        cases hns
      · intro _ n hn
        exact List.mem_append_left _ (hinv.notif_all hsent n hn)
      · intro _ hns
        rw [hsent] at hns
        cases hns
    case pos =>
      obtain ⟨hpos, hnotif⟩ := hg
      have hne : names ≠ [] := by
        intro h
        subst h
        simp at hpos
      rcases hlk : lookupReq st.requiredServices sp.Name with _ | b
      -- lookup misses: the name is not required; nothing is marked
      case none =>
        have hlt := hinv.notif_lt hne hnotif
        have hcl : ¬ st.requiredReady = names.length := by omega
        have hred : listenStep names.length override st (.pub (some sp)) =
            ⟨st.requiredServices, st.requiredReady, st.requiredNotifSent,
              st.closeCount⟩ := by
          simp only [listenStep, overridePingEndpoint_Status,
            overridePingEndpoint_Name, hst, if_true, hlk]
          rw [if_pos (And.intro hpos hnotif), if_neg hcl]
        rw [hred]
        refine ⟨hinv.keys_eq, hinv.ready_eq, hinv.close_le, hinv.notif_iff,
          hinv.empty_notif, ?_, ?_, ?_⟩
        · intro hns n
          by_cases hneq : n = sp.Name
          · subst hneq
            rw [hlk]
            constructor
            · intro h
              cases h
            · rintro ⟨hmem, _⟩
              rw [← hinv.keys_eq] at hmem
              obtain ⟨v, hv⟩ := lookupReq_mem_keys hmem
              rw [hv] at hlk
              cases hlk
          · rw [hinv.unmarked_iff hnotif n]
            simp [List.mem_append, hneq]
        · intro hns
          rw [hnotif] at hns
          cases hns
        · intro _ _
          exact hlt
      case some =>
        cases b
        -- lookup hits an unmarked required name: mark it and count it
        case false =>
          have hmemn : sp.Name ∈ names := by
            rw [← hinv.keys_eq]
            exact List.mem_map_of_mem Prod.fst (lookupReq_mem hlk)
          have hkeys' :
              (setReq st.requiredServices sp.Name true).map Prod.fst =
                names := by
            rw [setReq_keys true hlk, hinv.keys_eq]
          have hlenM : (setReq st.requiredServices sp.Name true).length =
              names.length := by
            have := congrArg List.length hkeys'
            simpa using this
          have hreadyM : st.requiredReady + 1 =
              ((setReq st.requiredServices sp.Name true).filter
                fun p => p.2).length := by
            rw [filter_setReq_true hlk, hinv.ready_eq]
          have hclose0 : st.closeCount = 0 := by
            have h1 := hinv.close_le
            have h2 : st.closeCount ≠ 1 := by
              intro hc
              rw [hinv.notif_iff.2 hc] at hnotif
              cases hnotif
            omega
          by_cases hcl : st.requiredReady + 1 = names.length
          · -- the marked name completes the set: close the ready signal
            have hred : listenStep names.length override st (.pub (some sp)) =
                ⟨setReq st.requiredServices sp.Name true,
                  st.requiredReady + 1, true, st.closeCount + 1⟩ := by
              simp only [listenStep, overridePingEndpoint_Status,
                overridePingEndpoint_Name, hst, if_true, hlk]
              rw [if_pos (And.intro hpos hnotif), if_pos hcl]
            rw [hred]
            have hallM : ∀ p ∈ setReq st.requiredServices sp.Name true,
                p.2 = true := by
              apply all_true_of_filter_length
              rw [← hreadyM, hcl, ← hlenM]
            refine ⟨hkeys', hreadyM, ?_, ?_, fun _ => rfl, ?_, ?_, ?_⟩
            · show st.closeCount + 1 ≤ 1
              omega
            · show true = true ↔ st.closeCount + 1 = 1
              simp [hclose0]
            · intro hns
              cases hns
            · intro _ n hn
              have hlkn : lookupReq
                  (setReq st.requiredServices sp.Name true) n = some true :=
                lookup_true_of_all hallM (by rw [hkeys']; exact hn)
              by_cases hneq : n = sp.Name
              · subst hneq
                simp
              · rw [lookupReq_setReq_ne _ true hneq] at hlkn
                exact List.mem_append_left _
                  ((hinv.unmarked_iff hnotif n).1 hlkn).2
            · intro _ hns
              cases hns
          · -- marked but the set is not yet complete
            have hred : listenStep names.length override st (.pub (some sp)) =
                ⟨setReq st.requiredServices sp.Name true,
                  st.requiredReady + 1, st.requiredNotifSent,
                  st.closeCount⟩ := by
              simp only [listenStep, overridePingEndpoint_Status,
                overridePingEndpoint_Name, hst, if_true, hlk]
              rw [if_pos (And.intro hpos hnotif), if_neg hcl]
            rw [hred]
            refine ⟨hkeys', hreadyM, hinv.close_le, hinv.notif_iff, ?_, ?_,
              ?_, ?_⟩
            · intro h
              exact absurd h hne
            · intro _ n
              by_cases hneq : n = sp.Name
              · subst hneq
                rw [lookupReq_setReq_self]
                simp [hmemn]
              · rw [lookupReq_setReq_ne _ true hneq,
                  hinv.unmarked_iff hnotif n]
                simp [List.mem_append, hneq]
            · intro hns
              rw [hnotif] at hns
              cases hns
            · intro _ _
              show st.requiredReady + 1 < names.length
              have hle := List.length_filter_le (fun p : String × Bool => p.2)
                (setReq st.requiredServices sp.Name true)
              omega
        -- lookup hits an already-marked name: nothing changes
        case true =>
          have hlt := hinv.notif_lt hne hnotif
          have hcl : ¬ st.requiredReady = names.length := by omega
          have hred : listenStep names.length override st (.pub (some sp)) =
              ⟨st.requiredServices, st.requiredReady, st.requiredNotifSent,
                st.closeCount⟩ := by
            simp only [listenStep, overridePingEndpoint_Status,
              overridePingEndpoint_Name, hst, if_true, hlk]
            rw [if_pos (And.intro hpos hnotif), if_neg hcl]
          rw [hred]
          refine ⟨hinv.keys_eq, hinv.ready_eq, hinv.close_le, hinv.notif_iff,
            hinv.empty_notif, ?_, ?_, ?_⟩
          · intro hns n
            by_cases hneq : n = sp.Name
            · subst hneq
              rw [hlk]
              have hmemn : sp.Name ∈ names := by
                rw [← hinv.keys_eq]
                exact List.mem_map_of_mem Prod.fst (lookupReq_mem hlk)
              simp [hmemn]
            · rw [hinv.unmarked_iff hnotif n]
              simp [List.mem_append, hneq]
          · intro hns
            rw [hnotif] at hns
            cases hns
          · intro _ _
            exact hlt

theorem helloNames_cons_pub (sp : ping) (rest : List ServiceMsg) :
    helloNames (.pub (some sp) :: rest) =
      (if sp.Status = serviceStatusHello then [sp.Name] else []) ++
        helloNames rest := by
  by_cases h : sp.Status = serviceStatusHello <;> simp [helloNames, h]

theorem runListen_inv_aux (names : List String) (override : String)
    (msgs : List ServiceMsg) :
    ∀ (st : RequiredState) (hellos : List String), ReqInv names hellos st →
      ReqInv names (hellos ++ helloNames msgs)
        (msgs.foldl (listenStep names.length override) st) := by
  induction msgs with
  | nil =>
    intro st hellos h
    simpa [helloNames] using h
  | cons m rest ih =>
    intro st hellos h
    cases m with
    | pub osp =>
      cases osp with
      | none =>
        have := ih st hellos h
        simpa [List.foldl_cons, listenStep, helloNames] using this
      | some sp =>
        have h1 := listenStep_inv names override st sp hellos h
        have h2 := ih _ _ h1
        rw [List.foldl_cons]
        rw [helloNames_cons_pub, ← List.append_assoc]
        exact h2
    | tick =>
      have := ih st hellos h
      simpa [List.foldl_cons, listenStep, helloNames] using this
    | errMsg =>
      have := ih st hellos h
      simpa [List.foldl_cons, listenStep, helloNames] using this

/-- C5: on `Start`, the ready signal is closed immediately exactly when
`requiredServices` is empty; over any message sequence `close(ready)` runs
at most once; and it has run exactly when every required service name has
produced at least one decoded hello — in particular it is not closed while
a required name is missing, and repeated hellos never close it again.
`requiredServices` is a set of names per the spec, hence the `Nodup`
hypothesis. -/
theorem listenService_ready_signal (names : List String) (override : String)
    (msgs : List ServiceMsg) (hnd : names.Nodup) :
    ((initListen names).closeCount = if names = [] then 1 else 0) ∧
    (runListen names override msgs).closeCount ≤ 1 ∧
    ((runListen names override msgs).closeCount = 1 ↔
      ∀ n ∈ names, n ∈ helloNames msgs) := by
  have hinv0 := initListen_inv names hnd
  have hinv := runListen_inv_aux names override msgs _ _ hinv0
  rw [List.nil_append] at hinv
  have hinv : ReqInv names (helloNames msgs) (runListen names override msgs) :=
    hinv
  refine ⟨?_, hinv.close_le, ?_, ?_⟩
  · by_cases h : names = []
    · subst h
      rw [initListen_nil]
      simp
    · have hz : ¬ names.length = 0 := fun hh => h (List.length_eq_zero.1 hh)
      rw [initListen_ne names hz, if_neg h]
  · intro hc n hn
    exact hinv.notif_all (hinv.notif_iff.2 hc) n hn
  · intro hall
    by_contra hc
    have hns : (runListen names override msgs).requiredNotifSent = false := by
      rcases Bool.eq_false_or_eq_true
          (runListen names override msgs).requiredNotifSent with h | h
      · exact absurd (hinv.notif_iff.1 h) hc
      · exact h
    by_cases hempty : names = []
    · have := hinv.empty_notif hempty
      rw [hns] at this
      cases this
    · have hlkall : ∀ n ∈ (runListen names override msgs).requiredServices.map
          Prod.fst,
          lookupReq (runListen names override msgs).requiredServices n =
            some true := by
        intro n hn
        rw [hinv.keys_eq] at hn
        exact (hinv.unmarked_iff hns n).2 ⟨hn, hall n hn⟩
      have hnd' : ((runListen names override msgs).requiredServices.map
          Prod.fst).Nodup := by
        rw [hinv.keys_eq]
        exact hnd
      have hfl := filter_length_of_all_lookup_true hnd' hlkall
      have hready := hinv.ready_eq
      have hlen : (runListen names override msgs).requiredServices.length =
          names.length := by
        have := congrArg List.length hinv.keys_eq
        simpa using this
      have hlt := hinv.notif_lt hempty hns
      omega

/-- The required-services scenario from the spec: hellos from `A`, a tick,
a hello from `B`, then a repeated hello from `A`. -/
def msgsReqEx : List ServiceMsg :=
  [.pub (some ⟨"A", "a:1", "hello", 0⟩), .tick,
   .pub (some ⟨"B", "b:1", "hello", 0⟩),
   .pub (some ⟨"A", "a:1", "hello", 0⟩)]

/-- Witness for C5: with `requiredServices = [A, B]` the signal is not
closed at start, is closed exactly once after both hellos, and the repeated
hello does not close it again. -/
theorem listenService_ready_signal_witness :
    (["A", "B"] : List String).Nodup ∧
    (((initListen ["A", "B"]).closeCount =
        if (["A", "B"] : List String) = [] then 1 else 0) ∧
      (runListen ["A", "B"] "" msgsReqEx).closeCount ≤ 1 ∧
      ((runListen ["A", "B"] "" msgsReqEx).closeCount = 1 ↔
        ∀ n ∈ (["A", "B"] : List String), n ∈ helloNames msgsReqEx)) :=
  ⟨by decide, listenService_ready_signal ["A", "B"] "" msgsReqEx (by decide)⟩

end Bahamut
